import Mathlib

/-!
Verification development for the feature-alignment engine of JUMPm
(src/featureAlignment2.py).  The Python code is shallowly embedded:
pandas tables become lists of `Feature` records kept in an explicit
intensity-descending working order, numpy float64 arithmetic is modelled
over `ℚ`, in-place numpy array mutation is modelled with an explicit
heap of arrays, fallible steps (KeyError, ValueError, R `stop(...)`)
return `Except String`, and the external runtimes (numpy's `sqrt`,
`random.normal`, `log2`; R's loess fit/predict) are oracle parameters,
with the argument-validation checks of the embedded R function
`loess.as` (length agreement, at least 3 observations) modelled exactly
as written in the source.
-/

deriving instance DecidableEq for Except

attribute [local semireducible] Rat.add Rat.mul Rat.sub Rat.inv

set_option maxRecDepth 100000

namespace FeatAlign

/-- One row of a feature table: the columns of the source that the
alignment engine reads (`index`, `mz`, `z`, `RT`, `intensity`). -/
structure Feature where
  fid : Int
  mz : ℚ
  z : Int
  RT : ℚ
  intensity : ℚ
deriving DecidableEq, Repr, Inhabited

/-- `df.sort_values("intensity", ascending=False)`: a deterministic
intensity-descending sort (insertion sort; equal inputs sort equally). -/
def insertDesc (f : Feature) : List Feature → List Feature
  | [] => [f]
  | g :: t => if g.intensity < f.intensity then f :: g :: t else g :: insertDesc f t

/-- Intensity-descending working order used by every matching routine. -/
def sortByIntensityDesc (xs : List Feature) : List Feature :=
  xs.foldr insertDesc []

/-- m/z deviation in ppm: `(comp["mz"] - mz) / mz * 1e6`. -/
def ppmDev (mz cmz : ℚ) : ℚ := (cmz - mz) / mz * 1000000

/-- The minimum positive entry of an array, `min(a[a > 0])`;
`none` models the ValueError raised by `min` on an empty selection. -/
def minPositive (xs : List ℚ) : Option ℚ :=
  match xs.filter (fun x => decide (0 < x)) with
  | [] => none
  | y :: ys => some (ys.foldl min y)

/-- The zero-flooring statement `a[a == 0] = min(a[a > 0])` performed on
the SD arrays at the start of `matchFeatures` and `findMatchedSubset`.
Python evaluates the right-hand side unconditionally, so an array with
no positive entry raises even when it has no zero entry. -/
def floorZeros (xs : List ℚ) : Except String (List ℚ) :=
  match minPositive xs with
  | none => .error "ValueError min of empty selection"
  | some m => .ok (xs.map (fun x => if x = 0 then m else x))

/-- An SD argument as the Python callers pass it: a plain scalar
(subsequently `np.repeat`ed), or a numpy array living on the heap. -/
inductive SdArg where
  | scalar (q : ℚ)
  | arr (r : ℕ)
deriving DecidableEq, Repr

/-- The store of numpy arrays, addressed by reference. -/
def Heap := ℕ → List ℚ

/-- Overwrite the array at reference `r` (in-place numpy mutation). -/
def Heap.write (h : Heap) (r : ℕ) (v : List ℚ) : Heap :=
  fun r2 => if r2 = r then v else h r2

/-- Read an SD argument: a scalar is expanded with `np.repeat(sd, n)`,
an array argument is the caller's array itself. -/
def resolveSd (h : Heap) (a : SdArg) (n : ℕ) : List ℚ :=
  match a with
  | .scalar q => List.replicate n q
  | .arr r => h r

/-- SD preparation at the top of `matchFeatures`/`findMatchedSubset`:
repeat a scalar, then floor zero entries.  For an array argument the
flooring writes through to the caller's array on the heap; the write
happens only if `min(a[a > 0])` did not raise. -/
def sdPrep (h : Heap) (a : SdArg) (n : ℕ) : Heap × Except String (List ℚ) :=
  match floorZeros (resolveSd h a n) with
  | .error e => (h, .error e)
  | .ok ys =>
    match a with
    | .scalar _ => (h, .ok ys)
    | .arr r => (h.write r ys, .ok ys)

/-- In-tolerance test of the matching loops:
`abs(rtDev) <= rtTol[i] and abs(mzDev) <= mzTol[i]`. -/
def inWindow (rtTol mzTol : ℚ) (rf c : Feature) : Bool :=
  decide (|c.RT - rf.RT| ≤ rtTol) && decide (|ppmDev rf.mz c.mz| ≤ mzTol)

/-- One output row of `matchFeatures`: the paired reference and
comparison rows together with their working-order positions. -/
structure MatchPair where
  refIdx : ℕ
  refF : Feature
  compIdx : ℕ
  compF : Feature
deriving DecidableEq, Repr

/-- The greedy matching loop of `matchFeatures` (lines 322-366).  The
comparison pool is a list of (position, feature) pairs in working order;
`rowInd[0]` is the head of the filtered pool (most intense remaining
candidate), and `comp.drop(rowInd)` removes the matched row. -/
def matchLoop (rtTol mzTol : List ℚ) :
    List (ℕ × Feature) → List (ℕ × Feature) → List MatchPair
  | [], _ => []
  | (i, rf) :: rest, comp =>
    let cands := comp.filter (fun c => inWindow (rtTol.getD i 0) (mzTol.getD i 0) rf c.2)
    match cands with
    | [] => matchLoop rtTol mzTol rest comp
    | c :: _ =>
      if rf.z = 0 then
        ⟨i, rf, c.1, c.2⟩ ::
          matchLoop rtTol mzTol rest (comp.filter (fun x => decide (x.1 ≠ c.1)))
      else if c.2.z = 0 then
        ⟨i, rf, c.1, c.2⟩ ::
          matchLoop rtTol mzTol rest (comp.filter (fun x => decide (x.1 ≠ c.1)))
      else
        match comp.filter (fun x =>
            inWindow (rtTol.getD i 0) (mzTol.getD i 0) rf x.2 && decide (x.2.z = rf.z)) with
        | [] => matchLoop rtTol mzTol rest comp
        | c2 :: _ =>
          ⟨i, rf, c2.1, c2.2⟩ ::
            matchLoop rtTol mzTol rest (comp.filter (fun x => decide (x.1 ≠ c2.1)))

/-- `matchFeatures` (lines 304-382) with the heap of SD arrays made
explicit: sort both tables by descending intensity, prepare (floor) the
SD arrays in place, build the per-reference tolerances `sd * sd_width`,
and run the greedy matching loop. -/
def matchFeaturesH (h : Heap) (ref comp : List Feature) (rtArg mzArg : SdArg)
    (sdWidth : ℚ) : Heap × Except String (List MatchPair) :=
  match sdPrep h rtArg (sortByIntensityDesc ref).length with
  | (h1, .error e) => (h1, .error e)
  | (h1, .ok rtSd) =>
    match sdPrep h1 mzArg (sortByIntensityDesc ref).length with
    | (h2, .error e) => (h2, .error e)
    | (h2, .ok mzSd) =>
      (h2, .ok (matchLoop (rtSd.map (· * sdWidth)) (mzSd.map (· * sdWidth))
                  (sortByIntensityDesc ref).enum (sortByIntensityDesc comp).enum))

/-- The pairs produced by `matchFeaturesH`, empty when the call raised. -/
def matchedPairs (h : Heap) (ref comp : List Feature) (rtArg mzArg : SdArg)
    (sdWidth : ℚ) : List MatchPair :=
  match (matchFeaturesH h ref comp rtArg mzArg sdWidth).2 with
  | .ok ps => ps
  | .error _ => []

/-- One row of the small matched dataframe built by `findMatchedSubset`
(lines 200-230): reference and comparison m/z, RT and intensity. -/
structure SubRow where
  refMz : ℚ
  refRt : ℚ
  refIntensity : ℚ
  compMz : ℚ
  compRt : ℚ
  compIntensity : ℚ
deriving DecidableEq, Repr

/-- The non-destructive matching loop of `findMatchedSubset`
(lines 204-227): for each reference feature, the most intense
comparison feature within tolerance (charge-aware unless the reference
charge is 0); nothing is removed from the pool. -/
def subLoop (rtTol mzTol : List ℚ) :
    List (ℕ × Feature) → List (ℕ × Feature) → List SubRow
  | [], _ => []
  | (i, rf) :: rest, comp =>
    let cands :=
      if rf.z = 0 then
        comp.filter (fun c => inWindow (rtTol.getD i 0) (mzTol.getD i 0) rf c.2)
      else
        comp.filter (fun c => inWindow (rtTol.getD i 0) (mzTol.getD i 0) rf c.2 &&
          decide (c.2.z = rf.z))
    match cands with
    | [] => subLoop rtTol mzTol rest comp
    | c :: _ =>
      ⟨rf.mz, rf.RT, rf.intensity, c.2.mz, c.2.RT, c.2.intensity⟩ ::
        subLoop rtTol mzTol rest comp

/-- An SD value passed around inside the calibration pipeline: the
scalar produced by the global stage, or the per-feature array produced
by a local pass. -/
inductive SdVal where
  | scalar (q : ℚ)
  | array (xs : List ℚ)
deriving DecidableEq, Repr

/-- `np.repeat(sd, n)` for a scalar; an array is used as is. -/
def SdVal.resolve (n : ℕ) : SdVal → List ℚ
  | .scalar q => List.replicate n q
  | .array xs => xs

/-- `findMatchedSubset` (lines 185-230), pure version over SD values:
sort both tables by descending intensity, expand and floor the SD
arrays, then collect the matched rows. -/
def findMatchedSubsetP (ref comp : List Feature) (rtSd mzSd : SdVal) (w : ℚ) :
    Except String (List SubRow) :=
  match floorZeros (rtSd.resolve (sortByIntensityDesc ref).length),
        floorZeros (mzSd.resolve (sortByIntensityDesc ref).length) with
  | .error e, _ => .error e
  | .ok _, .error e => .error e
  | .ok rtSdF, .ok mzSdF =>
    .ok (subLoop (rtSdF.map (· * w)) (mzSdF.map (· * w))
      (sortByIntensityDesc ref).enum (sortByIntensityDesc comp).enum)

/-- `findMatchedSubset` with the heap of SD arrays explicit: the
flooring at lines 194-195 writes through to the caller's arrays. -/
def findMatchedSubsetH (h : Heap) (ref comp : List Feature) (rtArg mzArg : SdArg)
    (w : ℚ) : Heap × Except String (List SubRow) :=
  match sdPrep h rtArg (sortByIntensityDesc ref).length with
  | (h1, .error e) => (h1, .error e)
  | (h1, .ok rtSd) =>
    match sdPrep h1 mzArg (sortByIntensityDesc ref).length with
    | (h2, .error e) => (h2, .error e)
    | (h2, .ok mzSd) =>
      (h2, .ok (subLoop (rtSd.map (· * w)) (mzSd.map (· * w))
        (sortByIntensityDesc ref).enum (sortByIntensityDesc comp).enum))

/-- Charge compatibility of one matched pair. -/
def chargeCompat (p : MatchPair) : Bool :=
  decide (p.refF.z = p.compF.z) || decide (p.refF.z = 0) || decide (p.compF.z = 0)

theorem matchLoop_mem_refIdx {rtTol mzTol : List ℚ} :
    ∀ {rl comp : List (ℕ × Feature)} {p : MatchPair},
      p ∈ matchLoop rtTol mzTol rl comp → p.refIdx ∈ rl.map Prod.fst := by
  intro rl
  induction rl with
  | nil => intro comp p hp; simp [matchLoop] at hp
  | cons hd tl ih =>
    intro comp p hp
    obtain ⟨i, rf⟩ := hd
    rw [matchLoop] at hp
    simp only [List.map_cons, List.mem_cons]
    split at hp
    · exact Or.inr (ih hp)
    · split at hp
      · rcases List.mem_cons.mp hp with h | h
        · left; rw [h]
        · exact Or.inr (ih h)
      · split at hp
        · rcases List.mem_cons.mp hp with h | h
          · left; rw [h]
          · exact Or.inr (ih h)
        · split at hp
          · exact Or.inr (ih hp)
          · rcases List.mem_cons.mp hp with h | h
            · left; rw [h]
            · exact Or.inr (ih h)

theorem matchLoop_mem_compIdx {rtTol mzTol : List ℚ} :
    ∀ {rl comp : List (ℕ × Feature)} {p : MatchPair},
      p ∈ matchLoop rtTol mzTol rl comp → p.compIdx ∈ comp.map Prod.fst := by
  intro rl
  induction rl with
  | nil => intro comp p hp; simp [matchLoop] at hp
  | cons hd tl ih =>
    intro comp p hp
    obtain ⟨i, rf⟩ := hd
    rw [matchLoop] at hp
    split at hp
    · exact ih hp
    · rename_i cs c rest hcands
      have hcmem : c ∈ comp.filter
          (fun c => inWindow (rtTol.getD i 0) (mzTol.getD i 0) rf c.2) := by
        rw [hcands]; exact List.mem_cons_self _ _
      have hc : c ∈ comp := List.mem_of_mem_filter hcmem
      split at hp
      · rcases List.mem_cons.mp hp with h | h
        · rw [h]; exact List.mem_map_of_mem Prod.fst hc
        · have := ih h
          rcases List.mem_map.mp this with ⟨x, hx, hxe⟩
          exact hxe ▸ List.mem_map_of_mem Prod.fst (List.mem_of_mem_filter hx)
      · split at hp
        · rcases List.mem_cons.mp hp with h | h
          · rw [h]; exact List.mem_map_of_mem Prod.fst hc
          · have := ih h
            rcases List.mem_map.mp this with ⟨x, hx, hxe⟩
            exact hxe ▸ List.mem_map_of_mem Prod.fst (List.mem_of_mem_filter hx)
        · split at hp
          · exact ih hp
          · rename_i cs2 c2 rest2 hcands2
            have hc2 : c2 ∈ comp := by
              have : c2 ∈ comp.filter (fun x =>
                  inWindow (rtTol.getD i 0) (mzTol.getD i 0) rf x.2 &&
                    decide (x.2.z = rf.z)) := by
                rw [hcands2]; exact List.mem_cons_self _ _
              exact List.mem_of_mem_filter this
            rcases List.mem_cons.mp hp with h | h
            · rw [h]; exact List.mem_map_of_mem Prod.fst hc2
            · have := ih h
              rcases List.mem_map.mp this with ⟨x, hx, hxe⟩
              exact hxe ▸ List.mem_map_of_mem Prod.fst (List.mem_of_mem_filter hx)

theorem matchLoop_nodup_refIdx {rtTol mzTol : List ℚ} :
    ∀ {rl comp : List (ℕ × Feature)}, (rl.map Prod.fst).Nodup →
      ((matchLoop rtTol mzTol rl comp).map MatchPair.refIdx).Nodup := by
  intro rl
  induction rl with
  | nil => intro comp _; simp [matchLoop]
  | cons hd tl ih =>
    intro comp hnd
    obtain ⟨i, rf⟩ := hd
    simp only [List.map_cons, List.nodup_cons] at hnd
    obtain ⟨hni, hnd⟩ := hnd
    have hhead : ∀ comp2 : List (ℕ × Feature),
        i ∉ (matchLoop rtTol mzTol tl comp2).map MatchPair.refIdx := by
      intro comp2 hmem
      rcases List.mem_map.mp hmem with ⟨p, hp, hpe⟩
      exact hni (hpe ▸ matchLoop_mem_refIdx hp)
    rw [matchLoop]
    split
    · exact ih hnd
    · split
      · exact List.nodup_cons.mpr ⟨hhead _, ih hnd⟩
      · split
        · exact List.nodup_cons.mpr ⟨hhead _, ih hnd⟩
        · split
          · exact ih hnd
          · exact List.nodup_cons.mpr ⟨hhead _, ih hnd⟩

theorem matchLoop_nodup_compIdx {rtTol mzTol : List ℚ} :
    ∀ {rl comp : List (ℕ × Feature)}, (comp.map Prod.fst).Nodup →
      ((matchLoop rtTol mzTol rl comp).map MatchPair.compIdx).Nodup := by
  intro rl
  induction rl with
  | nil => intro comp _; simp [matchLoop]
  | cons hd tl ih =>
    intro comp hnd
    obtain ⟨i, rf⟩ := hd
    have hsub : ∀ (q : ℕ × Feature → Bool),
        ((comp.filter q).map Prod.fst).Nodup := fun q =>
      List.Nodup.sublist (List.Sublist.map Prod.fst (List.filter_sublist comp)) hnd
    have hdropped : ∀ (c : ℕ × Feature),
        ((matchLoop rtTol mzTol tl (comp.filter (fun x => decide (x.1 ≠ c.1)))).map
            MatchPair.compIdx).Nodup ∧
          c.1 ∉ (matchLoop rtTol mzTol tl
            (comp.filter (fun x => decide (x.1 ≠ c.1)))).map MatchPair.compIdx := by
      intro c
      refine ⟨ih (hsub _), fun hmem => ?_⟩
      rcases List.mem_map.mp hmem with ⟨p, hp, hpe⟩
      have := matchLoop_mem_compIdx hp
      rcases List.mem_map.mp this with ⟨x, hx, hxe⟩
      have hne : x.1 ≠ c.1 := of_decide_eq_true ((List.mem_filter.mp hx).2)
      exact hne (hxe.trans hpe)
    rw [matchLoop]
    split
    · exact ih hnd
    · rename_i cs c rest hcands
      split
      · exact List.nodup_cons.mpr ⟨(hdropped c).2, (hdropped c).1⟩
      · split
        · exact List.nodup_cons.mpr ⟨(hdropped c).2, (hdropped c).1⟩
        · split
          · exact ih hnd
          · rename_i cs2 c2 rest2 hcands2
            exact List.nodup_cons.mpr ⟨(hdropped c2).2, (hdropped c2).1⟩

theorem matchLoop_chargeCompat {rtTol mzTol : List ℚ} :
    ∀ {rl comp : List (ℕ × Feature)},
      (matchLoop rtTol mzTol rl comp).all chargeCompat = true := by
  intro rl
  induction rl with
  | nil => intro comp; simp [matchLoop]
  | cons hd tl ih =>
    intro comp
    obtain ⟨i, rf⟩ := hd
    rw [matchLoop]
    split
    · exact ih
    · rename_i cs c rest hcands
      split
      · rename_i hz
        simp only [List.all_cons, Bool.and_eq_true]
        exact ⟨by simp [chargeCompat, hz], ih⟩
      · split
        · rename_i hcz
          simp only [List.all_cons, Bool.and_eq_true]
          exact ⟨by simp [chargeCompat, hcz], ih⟩
        · split
          · exact ih
          · rename_i cs2 c2 rest2 hcands2
            have hc2 : c2 ∈ comp.filter (fun x =>
                inWindow (rtTol.getD i 0) (mzTol.getD i 0) rf x.2 &&
                  decide (x.2.z = rf.z)) := by
              rw [hcands2]; exact List.mem_cons_self _ _
            have hzz : c2.2.z = rf.z := by
              have := List.of_mem_filter hc2
              simp only [Bool.and_eq_true, decide_eq_true_eq] at this
              exact this.2
            simp only [List.all_cons, Bool.and_eq_true]
            exact ⟨by simp [chargeCompat, hzz], ih⟩

theorem matchedPairs_cases (h : Heap) (ref comp : List Feature)
    (rtArg mzArg : SdArg) (w : ℚ) :
    matchedPairs h ref comp rtArg mzArg w = [] ∨
      ∃ rtSd mzSd : List ℚ,
        matchedPairs h ref comp rtArg mzArg w =
          matchLoop (rtSd.map (· * w)) (mzSd.map (· * w))
            (sortByIntensityDesc ref).enum (sortByIntensityDesc comp).enum := by
  unfold matchedPairs matchFeaturesH
  split
  · rename_i ps hps
    split at hps
    · simp at hps
    · split at hps
      · simp at hps
      · simp only [Except.ok.injEq] at hps
        exact Or.inr ⟨_, _, hps.symm⟩
  · exact Or.inl rfl

/-- C1: in the output of `matchFeatures` no reference position and no
comparison position appears in more than one pair: matching is a
partial one-to-one correspondence, and a matched comparison row is
removed from the pool and never reused. -/
theorem matchFeatures_one_to_one (h : Heap) (ref comp : List Feature)
    (rtArg mzArg : SdArg) (w : ℚ) :
    ((matchedPairs h ref comp rtArg mzArg w).map MatchPair.refIdx).Nodup ∧
      ((matchedPairs h ref comp rtArg mzArg w).map MatchPair.compIdx).Nodup := by
  rcases matchedPairs_cases h ref comp rtArg mzArg w with he | ⟨rtSd, mzSd, he⟩
  · rw [he]; exact ⟨List.nodup_nil, List.nodup_nil⟩
  · rw [he]
    constructor
    · exact matchLoop_nodup_refIdx (by rw [List.enum_map_fst]; exact List.nodup_range _)
    · exact matchLoop_nodup_compIdx (by rw [List.enum_map_fst]; exact List.nodup_range _)

/-- C2: every pair output by `matchFeatures` is charge-compatible: the
reference charge equals the comparison charge, or one of the two is 0
(and when reference and most intense candidate both carry a nonzero
charge, the accepted candidate is taken from the exact-charge refilter,
so its charge equals the reference charge). -/
theorem matchFeatures_charge_compat (h : Heap) (ref comp : List Feature)
    (rtArg mzArg : SdArg) (w : ℚ) :
    (matchedPairs h ref comp rtArg mzArg w).all chargeCompat = true := by
  rcases matchedPairs_cases h ref comp rtArg mzArg w with he | ⟨rtSd, mzSd, he⟩
  · rw [he]; rfl
  · rw [he]; exact matchLoop_chargeCompat

theorem foldl_min_le : ∀ (ys : List ℚ) (y : ℚ),
    ys.foldl min y ≤ y ∧ ∀ a ∈ ys, ys.foldl min y ≤ a := by
  intro ys
  induction ys with
  | nil => intro y; exact ⟨le_refl y, by simp⟩
  | cons b t ih =>
    intro y
    simp only [List.foldl_cons]
    refine ⟨le_trans (ih (min y b)).1 (min_le_left y b), ?_⟩
    intro a ha
    rcases List.mem_cons.mp ha with h | h
    · subst h
      exact le_trans (ih (min y a)).1 (min_le_right y a)
    · exact (ih (min y b)).2 a h

theorem foldl_min_mem : ∀ (ys : List ℚ) (y : ℚ),
    ys.foldl min y = y ∨ ys.foldl min y ∈ ys := by
  intro ys
  induction ys with
  | nil => intro y; exact Or.inl rfl
  | cons b t ih =>
    intro y
    simp only [List.foldl_cons]
    rcases ih (min y b) with h | h
    · rcases min_choice y b with hc | hc
      · exact Or.inl (h.trans hc)
      · exact Or.inr (List.mem_cons.mpr (Or.inl (h.trans hc)))
    · exact Or.inr (List.mem_cons.mpr (Or.inr h))

theorem minPositive_spec {xs : List ℚ} {m : ℚ} (h : minPositive xs = some m) :
    m ∈ xs ∧ 0 < m ∧ ∀ x ∈ xs, 0 < x → m ≤ x := by
  unfold minPositive at h
  split at h
  · exact absurd h (by simp)
  · rename_i y ys hf
    have hm : m = ys.foldl min y := by
      simpa using h.symm
    have hmemf : m ∈ xs.filter (fun x => decide (0 < x)) := by
      rw [hf, hm]
      rcases foldl_min_mem ys y with h2 | h2
      · rw [h2]; exact List.mem_cons_self y ys
      · exact List.mem_cons.mpr (Or.inr h2)
    refine ⟨List.mem_of_mem_filter hmemf,
      of_decide_eq_true ((List.mem_filter.mp hmemf).2), ?_⟩
    intro x hx hxpos
    have hxf : x ∈ xs.filter (fun x => decide (0 < x)) :=
      List.mem_filter.mpr ⟨hx, decide_eq_true hxpos⟩
    rw [hf] at hxf
    rw [hm]
    rcases List.mem_cons.mp hxf with h2 | h2
    · exact h2 ▸ (foldl_min_le ys y).1
    · exact (foldl_min_le ys y).2 x h2

theorem minPositive_isSome {xs : List ℚ} (h : ∃ x ∈ xs, 0 < x) :
    ∃ m, minPositive xs = some m := by
  obtain ⟨x, hx, hxpos⟩ := h
  have hxf : x ∈ xs.filter (fun x => decide (0 < x)) :=
    List.mem_filter.mpr ⟨hx, decide_eq_true hxpos⟩
  unfold minPositive
  split
  · rename_i hf
    rw [hf] at hxf
    exact absurd hxf (List.not_mem_nil x)
  · exact ⟨_, rfl⟩

/-- C5: for any SD array with at least one positive entry, the
zero-flooring step performed at the start of `matchFeatures` and
`findMatchedSubset` succeeds; afterwards no entry is zero, every
originally-positive entry is unchanged, and every originally-zero entry
equals the minimum positive entry of the original array. -/
theorem sd_zero_floor_spec (xs : List ℚ) (hpos : ∃ x ∈ xs, 0 < x) :
    ∃ m ys, minPositive xs = some m ∧ floorZeros xs = .ok ys ∧
      m ∈ xs ∧ 0 < m ∧ (∀ x ∈ xs, 0 < x → m ≤ x) ∧
      ys.length = xs.length ∧
      (∀ i, (hi : i < xs.length) → 0 < xs[i] → ys.getD i 0 = xs[i]) ∧
      (∀ i, (hi : i < xs.length) → xs[i] = 0 → ys.getD i 0 = m) ∧
      ∀ y ∈ ys, y ≠ 0 := by
  obtain ⟨m, hm⟩ := minPositive_isSome hpos
  obtain ⟨hmem, hmpos, hmle⟩ := minPositive_spec hm
  refine ⟨m, xs.map (fun x => if x = 0 then m else x), hm, ?_, hmem, hmpos, hmle,
    List.length_map xs _, ?_, ?_, ?_⟩
  · unfold floorZeros
    rw [hm]
  · intro i hi hxi
    rw [List.getD_eq_getElem _ 0 (by simpa using hi), List.getElem_map]
    rw [if_neg (ne_of_gt hxi)]
  · intro i hi hxi
    rw [List.getD_eq_getElem _ 0 (by simpa using hi), List.getElem_map]
    rw [if_pos hxi]
  · intro y hy
    rcases List.mem_map.mp hy with ⟨x, hx, hxe⟩
    by_cases hx0 : x = 0
    · rw [← hxe, if_pos hx0]; exact ne_of_gt hmpos
    · rw [← hxe, if_neg hx0]; exact hx0

theorem sd_zero_floor_spec_witness :
    (∃ x ∈ ([0, 3, 2] : List ℚ), 0 < x) ∧
      ∃ m ys, minPositive ([0, 3, 2] : List ℚ) = some m ∧
        floorZeros ([0, 3, 2] : List ℚ) = .ok ys ∧
        m ∈ ([0, 3, 2] : List ℚ) ∧ 0 < m ∧
        (∀ x ∈ ([0, 3, 2] : List ℚ), 0 < x → m ≤ x) ∧
        ys.length = ([0, 3, 2] : List ℚ).length ∧
        (∀ i, (hi : i < ([0, 3, 2] : List ℚ).length) →
          0 < ([0, 3, 2] : List ℚ)[i] → ys.getD i 0 = ([0, 3, 2] : List ℚ)[i]) ∧
        (∀ i, (hi : i < ([0, 3, 2] : List ℚ).length) →
          ([0, 3, 2] : List ℚ)[i] = 0 → ys.getD i 0 = m) ∧
        ∀ y ∈ ys, y ≠ 0 :=
  ⟨⟨3, by decide⟩, sd_zero_floor_spec [0, 3, 2] ⟨3, by decide⟩⟩

theorem insertDesc_length (f : Feature) :
    ∀ xs : List Feature, (insertDesc f xs).length = xs.length + 1 := by
  intro xs
  induction xs with
  | nil => rfl
  | cons g t ih =>
    rw [insertDesc]
    split
    · rfl
    · simp only [List.length_cons, ih]

theorem sortByIntensityDesc_length (xs : List Feature) :
    (sortByIntensityDesc xs).length = xs.length := by
  unfold sortByIntensityDesc
  induction xs with
  | nil => rfl
  | cons g t ih =>
    simp only [List.foldr_cons, insertDesc_length, ih, List.length_cons]

/-- C10: when an SD array (a heap reference) passed to `matchFeatures`
or `findMatchedSubset` contains zero entries, the caller's array object
itself is floored in place: after the call the heap cell holds the
floored array, which differs from the original, so the change is
visible to the caller. -/
theorem sd_floor_in_place (h : Heap) (r : ℕ) (ref comp : List Feature) (q w : ℚ)
    (hz : (0 : ℚ) ∈ h r) (hp : ∃ x ∈ h r, 0 < x) (hq : 0 < q) (href : ref ≠ []) :
    ∃ m, minPositive (h r) = some m ∧
      (matchFeaturesH h ref comp (.arr r) (.scalar q) w).1 r =
        (h r).map (fun x => if x = 0 then m else x) ∧
      (matchFeaturesH h ref comp (.arr r) (.scalar q) w).1 r ≠ h r ∧
      (findMatchedSubsetH h ref comp (.arr r) (.scalar q) w).1 r =
        (h r).map (fun x => if x = 0 then m else x) ∧
      (findMatchedSubsetH h ref comp (.arr r) (.scalar q) w).1 r ≠ h r := by
  obtain ⟨m, hm⟩ := minPositive_isSome hp
  obtain ⟨_, hmpos, _⟩ := minPositive_spec hm
  have hn : (sortByIntensityDesc ref).length ≠ 0 := by
    rw [sortByIntensityDesc_length]
    simpa using href
  have h1 : sdPrep h (.arr r) (sortByIntensityDesc ref).length =
      (h.write r ((h r).map (fun x => if x = 0 then m else x)),
        .ok ((h r).map (fun x => if x = 0 then m else x))) := by
    simp only [sdPrep, resolveSd, floorZeros, hm]
  have hq2 : ∃ m2, minPositive
      (List.replicate (sortByIntensityDesc ref).length q) = some m2 :=
    minPositive_isSome ⟨q, List.mem_replicate.mpr ⟨hn, rfl⟩, hq⟩
  obtain ⟨m2, hm2⟩ := hq2
  have h2 : ∀ hh : Heap, sdPrep hh (.scalar q) (sortByIntensityDesc ref).length =
      (hh, .ok ((List.replicate (sortByIntensityDesc ref).length q).map
        (fun x => if x = 0 then m2 else x))) := by
    intro hh
    simp only [sdPrep, resolveSd, floorZeros, hm2]
  have hwr : (h.write r ((h r).map (fun x => if x = 0 then m else x))) r =
      (h r).map (fun x => if x = 0 then m else x) := by
    simp [Heap.write]
  have hne : (h r).map (fun x => if x = 0 then m else x) ≠ h r := by
    intro heq
    rcases List.mem_iff_getElem.mp hz with ⟨i, hi, hgi⟩
    have := congrArg (fun l => l.getD i 1) heq
    simp only at this
    rw [List.getD_eq_getElem _ 1 (by simpa using hi), List.getElem_map,
      List.getD_eq_getElem _ 1 hi, hgi, if_pos rfl] at this
    exact ne_of_gt hmpos this
  refine ⟨m, hm, ?_, ?_, ?_, ?_⟩
  · simp only [matchFeaturesH, h1, h2]
    exact hwr
  · simp only [matchFeaturesH, h1, h2]
    rw [hwr]; exact hne
  · simp only [findMatchedSubsetH, h1, h2]
    exact hwr
  · simp only [findMatchedSubsetH, h1, h2]
    rw [hwr]; exact hne

/-- A concrete heap holding one SD array with a zero entry. -/
def heap0 : Heap := fun _ => [0, 2]

/-- A one-feature reference table used by concrete evaluations. -/
def refOne : List Feature := [⟨0, 100, 1, 10, 5⟩]

theorem sd_floor_in_place_witness :
    ((0 : ℚ) ∈ heap0 0 ∧ (∃ x ∈ heap0 0, 0 < x) ∧ (0 : ℚ) < 1 ∧ refOne ≠ []) ∧
      ∃ m, minPositive (heap0 0) = some m ∧
        (matchFeaturesH heap0 refOne [] (.arr 0) (.scalar 1) 10).1 0 =
          (heap0 0).map (fun x => if x = 0 then m else x) ∧
        (matchFeaturesH heap0 refOne [] (.arr 0) (.scalar 1) 10).1 0 ≠ heap0 0 ∧
        (findMatchedSubsetH heap0 refOne [] (.arr 0) (.scalar 1) 10).1 0 =
          (heap0 0).map (fun x => if x = 0 then m else x) ∧
        (findMatchedSubsetH heap0 refOne [] (.arr 0) (.scalar 1) 10).1 0 ≠ heap0 0 :=
  ⟨⟨by decide, ⟨2, by decide⟩, by decide, by decide⟩,
    sd_floor_in_place heap0 0 refOne [] 1 10 (by decide) ⟨2, by decide⟩
      (by decide) (by decide)⟩

/-- Ascending insertion of one value (helper of the sort used by
percentile computations). -/
def insertAsc (x : ℚ) : List ℚ → List ℚ
  | [] => [x]
  | y :: t => if x ≤ y then x :: y :: t else y :: insertAsc x t

/-- Ascending sort of a rational array (numpy sorts before computing a
percentile). -/
def sortAsc (xs : List ℚ) : List ℚ := xs.foldr insertAsc []

/-- `np.percentile(a, p)` with the default linear interpolation:
`h = (n-1)*p/100`, linearly interpolated between the neighbouring order
statistics.  An empty array raises (IndexError). -/
def percentile (xs : List ℚ) (p : ℚ) : Except String ℚ :=
  match sortAsc xs with
  | [] => .error "IndexError percentile of empty array"
  | y :: ys =>
    let a := y :: ys
    let hq : ℚ := ((a.length - 1 : ℕ) : ℚ) * p / 100
    .ok (a.getD ⌊hq⌋.toNat 0 +
      (hq - ⌊hq⌋) * (a.getD ⌈hq⌉.toNat 0 - a.getD ⌊hq⌋.toNat 0))

/-- `np.median`, which agrees with the 50th linear-interpolation
percentile. -/
def medianQ (xs : List ℚ) : Except String ℚ := percentile xs 50

/-- Python 3 `round` to an integer: banker's rounding (round half to
even), applied to the exact rational value. -/
def pythonRound (q : ℚ) : ℤ :=
  if q - ⌊q⌋ < 1/2 then ⌊q⌋
  else if 1/2 < q - ⌊q⌋ then ⌊q⌋ + 1
  else if ⌊q⌋ % 2 = 0 then ⌊q⌋ else ⌊q⌋ + 1

/-- `nPeaks = round(0.05 * ref.shape[0])`: the 5 percent quota of the
global-calibration scan. -/
def nPeaksOf (n : ℕ) : ℕ := (pythonRound ((1 : ℚ) / 20 * n)).toNat

/-- Candidates of one global-calibration iteration (lines 74-83): the
comparison features inside the ppm window `[lL, uL)`, charge-matched
unless the reference charge is 0. -/
def gCands (mzTol : ℚ) (rf : Feature) (comp : List (ℕ × Feature)) :
    List (ℕ × Feature) :=
  if rf.z = 0 then
    comp.filter (fun c => decide (rf.mz - rf.mz * mzTol / 1000000 ≤ c.2.mz) &&
      decide (c.2.mz < rf.mz + rf.mz * mzTol / 1000000))
  else
    comp.filter (fun c => decide (rf.mz - rf.mz * mzTol / 1000000 ≤ c.2.mz) &&
      decide (c.2.mz < rf.mz + rf.mz * mzTol / 1000000) && decide (c.2.z = rf.z))

/-- The `while j <= nPeaks` scan of `globalCalibration` (lines 70-91):
`needed` counts the matches still missing from the quota.  The source
loop indexes `ref[...][i]` without bounding `i` by the table size, so
exhausting the reference list with the quota unmet raises a KeyError,
modelled as an error. -/
def globalLoop (mzTol : ℚ) :
    List Feature → List (ℕ × Feature) → ℕ → Except String (List (ℚ × ℚ))
  | _, _, 0 => .ok []
  | [], _, _ + 1 => .error "KeyError reference run exhausted"
  | rf :: rest, comp, needed + 1 =>
    match gCands mzTol rf comp with
    | [] => globalLoop mzTol rest comp (needed + 1)
    | c :: _ =>
      match globalLoop mzTol rest (comp.filter (fun x => decide (x.1 ≠ c.1))) needed with
      | .error e => .error e
      | .ok tl => .ok ((c.2.RT - rf.RT, ppmDev rf.mz c.2.mz) :: tl)

/-- The number of matches the greedy scan makes when run over the whole
reference table (the measure deciding whether the quota is reachable). -/
def greedyCount (mzTol : ℚ) : List Feature → List (ℕ × Feature) → ℕ
  | [], _ => 0
  | rf :: rest, comp =>
    match gCands mzTol rf comp with
    | [] => greedyCount mzTol rest comp
    | c :: _ => 1 + greedyCount mzTol rest (comp.filter (fun x => decide (x.1 ≠ c.1)))

/-- Trimming of a shift sample to its 10th-90th percentile
(lines 93-99). -/
def trimTo10_90 (xs : List ℚ) : Except String (List ℚ) :=
  match percentile xs 10, percentile xs 90 with
  | .ok lo, .ok hi =>
    .ok (xs.filter (fun x => decide (lo ≤ x) && decide (x ≤ hi)))
  | .error e, _ => .error e
  | _, .error e => .error e

/-- `globalCalibration` (lines 66-100): run the quota-bounded greedy
scan, then trim both shift samples to their central 80 percent. -/
def globalCalibration (ref comp : List Feature) (mzTol : ℚ) :
    Except String (List ℚ × List ℚ) :=
  match globalLoop mzTol ref comp.enum (nPeaksOf ref.length) with
  | .error e => .error e
  | .ok shifts =>
    match trimTo10_90 (shifts.map Prod.fst), trimTo10_90 (shifts.map Prod.snd) with
    | .ok rt, .ok mz => .ok (rt, mz)
    | .error e, _ => .error e
    | _, .error e => .error e

theorem globalLoop_ok_length (mzTol : ℚ) :
    ∀ (rl : List Feature) (comp : List (ℕ × Feature)) (needed : ℕ)
      (s : List (ℚ × ℚ)), globalLoop mzTol rl comp needed = .ok s →
        s.length = needed := by
  intro rl
  induction rl with
  | nil =>
    intro comp needed s hs
    cases needed with
    | zero =>
      rw [globalLoop] at hs
      cases hs; rfl
    | succ k => exact absurd hs (by rw [globalLoop]; simp)
  | cons rf rest ih =>
    intro comp needed s hs
    cases needed with
    | zero =>
      rw [globalLoop] at hs
      cases hs; rfl
    | succ k =>
      rw [globalLoop] at hs
      split at hs
      · exact ih comp (k + 1) s hs
      · split at hs
        · exact absurd hs (by simp)
        · rename_i tl htl
          cases hs
          simp only [List.length_cons]
          rw [ih _ k tl htl]

theorem globalLoop_ok_iff (mzTol : ℚ) :
    ∀ (rl : List Feature) (comp : List (ℕ × Feature)) (needed : ℕ),
      (∃ s, globalLoop mzTol rl comp needed = .ok s) ↔
        needed ≤ greedyCount mzTol rl comp := by
  intro rl
  induction rl with
  | nil =>
    intro comp needed
    cases needed with
    | zero => simp [globalLoop, greedyCount]
    | succ k => simp [globalLoop, greedyCount]
  | cons rf rest ih =>
    intro comp needed
    cases needed with
    | zero =>
      simp only [globalLoop, greedyCount]
      constructor
      · intro _; exact Nat.zero_le _
      · intro _; exact ⟨[], rfl⟩
    | succ k =>
      rw [globalLoop, greedyCount]
      split
      · exact ih comp (k + 1)
      · rename_i c cs hc
        constructor
        · intro ⟨s, hs⟩
          split at hs
          · exact absurd hs (by simp)
          · rename_i tl htl
            have : k ≤ greedyCount mzTol rest
                (comp.filter (fun x => decide (x.1 ≠ c.1))) :=
              (ih _ k).mp ⟨tl, htl⟩
            omega
        · intro hk
          have : k ≤ greedyCount mzTol rest
              (comp.filter (fun x => decide (x.1 ≠ c.1))) := by omega
          obtain ⟨tl, htl⟩ := (ih _ k).mpr this
          exact ⟨_, by rw [htl]⟩

theorem insertAsc_length (x : ℚ) :
    ∀ xs : List ℚ, (insertAsc x xs).length = xs.length + 1 := by
  intro xs
  induction xs with
  | nil => rfl
  | cons y t ih =>
    rw [insertAsc]
    split
    · rfl
    · simp only [List.length_cons, ih]

theorem sortAsc_length (xs : List ℚ) : (sortAsc xs).length = xs.length := by
  unfold sortAsc
  induction xs with
  | nil => rfl
  | cons y t ih =>
    simp only [List.foldr_cons, insertAsc_length, ih, List.length_cons]

theorem percentile_ok {xs : List ℚ} (h : xs ≠ []) (p : ℚ) :
    ∃ v, percentile xs p = .ok v := by
  unfold percentile
  split
  · rename_i hs
    have := sortAsc_length xs
    rw [hs] at this
    exact absurd (List.length_eq_zero.mp this.symm) h
  · exact ⟨_, rfl⟩

theorem trimTo10_90_ok {xs : List ℚ} (h : xs ≠ []) :
    ∃ v, trimTo10_90 xs = .ok v := by
  obtain ⟨lo, hlo⟩ := percentile_ok h 10
  obtain ⟨hi, hhi⟩ := percentile_ok h 90
  unfold trimTo10_90
  rw [hlo, hhi]
  exact ⟨_, rfl⟩

/-- C3 (amended): `globalCalibration` returns normally precisely when
the 5 percent quota `round(0.05*n)` is at least one and the greedy scan
can reach it before the reference table is exhausted; the scan stops as
soon as the quota is met.  When the reference table runs out first the
scan indexes past its end and raises instead of returning (and a zero
quota leaves the shift samples empty, so the percentile trimming
raises). -/
theorem globalCalibration_returns_iff (ref comp : List Feature) (mzTol : ℚ) :
    (∃ v, globalCalibration ref comp mzTol = .ok v) ↔
      1 ≤ nPeaksOf ref.length ∧
        nPeaksOf ref.length ≤ greedyCount mzTol ref comp.enum := by
  constructor
  · intro ⟨v, hv⟩
    unfold globalCalibration at hv
    split at hv
    · exact absurd hv (by simp)
    · rename_i shifts hshifts
      have hlen := globalLoop_ok_length mzTol ref comp.enum _ shifts hshifts
      have hne : shifts ≠ [] := by
        intro he
        rw [he] at hv
        simp only [List.map_nil] at hv
        rw [show trimTo10_90 [] = .error "IndexError percentile of empty array"
          from rfl] at hv
        exact absurd hv (by simp)
      refine ⟨?_, (globalLoop_ok_iff mzTol ref comp.enum _).mp ⟨shifts, hshifts⟩⟩
      rw [← hlen]
      exact Nat.one_le_iff_ne_zero.mpr (by simpa using hne)
  · intro ⟨h1, h2⟩
    obtain ⟨shifts, hshifts⟩ := (globalLoop_ok_iff mzTol ref comp.enum _).mpr h2
    have hlen := globalLoop_ok_length mzTol ref comp.enum _ shifts hshifts
    have hne : shifts ≠ [] := by
      intro he
      rw [he] at hlen
      simp only [List.length_nil] at hlen
      omega
    have hne1 : shifts.map Prod.fst ≠ [] := by simpa using hne
    have hne2 : shifts.map Prod.snd ≠ [] := by simpa using hne
    obtain ⟨v1, hv1⟩ := trimTo10_90_ok hne1
    obtain ⟨v2, hv2⟩ := trimTo10_90_ok hne2
    refine ⟨(v1, v2), ?_⟩
    unfold globalCalibration
    rw [hshifts]
    simp only [hv1, hv2]

/-- A 20-feature reference table with well-separated m/z values and
pairwise distinct intensities. -/
def ref20 : List Feature :=
  (List.range 20).map (fun k =>
    ⟨(k : Int), 100 + (k : ℚ), 1, 10 * (k : ℚ), 1000 - (k : ℚ)⟩)

/-- C3 counterexample: with 20 reference features (quota
`round(0.05*20) = 1`) and an empty comparison run, the greedy scan never
reaches its quota and `globalCalibration` raises (the scan runs off the
end of the reference table) instead of stopping when the table is
exhausted. -/
theorem globalCalibration_exhaustion_raises :
    globalCalibration ref20 [] 20 = .error "KeyError reference run exhausted" := by
  decide

/-- Oracle for the external runtimes: numpy square root and normal
draws, R loess fitted values and predictions.  The models returned by
the R fit are represented by their fitting data `(x, y)`, so
`loessFitted x y` stands for `fit(y ~ x)$fitted` and
`loessPredict x y newx` for `predict(fit(y ~ x), newx)`.  The field
`sqrt_zero` records the IEEE guarantee `np.sqrt(0.0) == 0.0`. -/
structure Oracle where
  sqrtQ : ℚ → ℚ
  sqrt_zero : sqrtQ 0 = 0
  normalDraw : ℕ → ℚ
  loessFitted : List ℚ → List ℚ → List ℚ
  loessPredict : List ℚ → List ℚ → List ℚ → List ℚ
  log2 : ℚ → ℚ

/-- A trivial inhabitant of the oracle. -/
def idOracle : Oracle :=
  ⟨fun _ => 0, rfl, fun _ => 0, fun _ _ => [], fun _ _ _ => [], fun _ => 0⟩

/-- An oracle whose loess fit and predictions are identically zero, of
the lengths the R runtime would produce. -/
def zeroOracle : Oracle :=
  ⟨fun _ => 0, rfl, fun _ => 0, fun x _ => x.map (fun _ => 0),
    fun _ _ newx => newx.map (fun _ => 0), fun _ => 0⟩

/-- Argument validation of the embedded R function `loess.as`
(source R string, lines 111-119): predictor and response must have the
same length, and at least 3 observations are required; a violation is
an R `stop(...)` that propagates to the Python caller as an error. -/
def rLoessCheck (x y : List ℚ) : Except String Unit :=
  if x.length ≠ y.length then .error "loess x and y have different lengths"
  else if y.length < 3 then .error "loess not enough observations"
  else .ok ()

/-- Sample variance with `ddof = 1` (square of `np.std(xs, ddof=1)`).
A sample of fewer than two elements divides by zero and yields NaN in
numpy, which poisons the rest of the pipeline; modelled as an error. -/
def sampleVar (xs : List ℚ) : Except String ℚ :=
  if xs.length < 2 then .error "nan variance"
  else
    .ok (((xs.map (fun x => (x - xs.sum / xs.length) * (x - xs.sum / xs.length))).sum) /
      ((xs.length - 1 : ℕ) : ℚ))

/-- `localCalibration` (lines 233-301).  The degenerate guards at lines
243-244, 251-252, 261-262, 273-274, 281-282, 289-290 substitute
`1e-6 * np.random.normal(len(...))`; since the argument of
`np.random.normal` sets the mean and not the size, the draw is a single
scalar and the response handed to the loess fit is a single-element
vector, modelled as a singleton list.  An empty matched subset has no
columns in the source dataframe, so reading `subDf["refRt"]` raises
(KeyError), modelled as an error. -/
def localCalibration (o : Oracle) (ref comp : List Feature) (rtSd mzSd : SdVal)
    (w : ℚ) (ty : String) : Except String (List Feature × SdVal × SdVal) :=
  match findMatchedSubsetP ref comp rtSd mzSd w with
  | .error e => .error e
  | .ok rows =>
    match rows with
    | [] => .error "KeyError empty matched subset"
    | _ :: _ =>
      let refRt := rows.map SubRow.refRt
      let compRt := rows.map SubRow.compRt
      let refMz := rows.map SubRow.refMz
      let compMz := rows.map SubRow.compMz
      if ty = "RT" then
        let rtShifts :=
          if refRt = compRt then [1 / 1000000 * o.normalDraw refRt.length]
          else List.zipWith (fun a b => a - b) compRt refRt
        match rLoessCheck compRt rtShifts with
        | .error e => .error e
        | .ok _ =>
          let fitted := o.loessFitted compRt rtShifts
          let compRt2 := List.zipWith (fun a b => a - b) compRt fitted
          let rtShifts2 :=
            if refRt = compRt2 then [1 / 1000000 * o.normalDraw refRt.length]
            else List.zipWith (fun a b => a - b) compRt2 refRt
          match percentile rtShifts2 10, percentile rtShifts2 90 with
          | .ok lo, .ok hi =>
            let kept := (List.zip compRt2 rtShifts2).filter
              (fun p => decide (lo ≤ p.2) && decide (p.2 ≤ hi))
            match rLoessCheck (kept.map Prod.fst)
                (kept.map (fun p => p.2 * p.2)) with
            | .error e => .error e
            | .ok _ =>
              let rtSdNew := (o.loessPredict (kept.map Prod.fst)
                (kept.map (fun p => p.2 * p.2))
                (ref.map Feature.RT)).map (fun v => o.sqrtQ (max 0 v))
              let mzShifts :=
                if refMz = compMz then [1 / 1000000 * o.normalDraw refMz.length]
                else List.zipWith (fun c r => (c - r) / r * 1000000) compMz refMz
              match rLoessCheck compMz (mzShifts.map (fun v => v * v)) with
              | .error e => .error e
              | .ok _ =>
                let mzSdNew := (o.loessPredict compMz
                  (mzShifts.map (fun v => v * v))
                  (ref.map Feature.mz)).map (fun v => o.sqrtQ (max 0 v))
                let compNew := List.zipWith (fun f p => { f with RT := f.RT - p })
                  comp (o.loessPredict compRt rtShifts (comp.map Feature.RT))
                .ok (compNew, .array rtSdNew, .array mzSdNew)
          | .error e, _ => .error e
          | _, .error e => .error e
      else if ty = "mz" then
        let mzShifts :=
          if refMz = compMz then [1 / 1000000 * o.normalDraw refMz.length]
          else List.zipWith (fun c r => (c - r) / r * 1000000) compMz refMz
        match rLoessCheck compMz mzShifts with
        | .error e => .error e
        | .ok _ =>
          let fitted := o.loessFitted compMz mzShifts
          let compMz2 := List.zipWith (fun c p => c * (1 + p / 1000000)) compMz fitted
          let mzShifts2 :=
            if refMz = compMz2 then [1 / 1000000 * o.normalDraw refMz.length]
            else List.zipWith (fun c r => (c - r) / r * 1000000) compMz2 refMz
          match rLoessCheck compMz2 (mzShifts2.map (fun v => v * v)) with
          | .error e => .error e
          | .ok _ =>
            let mzSdNew := (o.loessPredict compMz2
              (mzShifts2.map (fun v => v * v))
              (ref.map Feature.mz)).map (fun v => o.sqrtQ (max 0 v))
            let rtShifts :=
              if refRt = compRt then [1 / 1000000 * o.normalDraw refRt.length]
              else List.zipWith (fun a b => a - b) compRt refRt
            match percentile rtShifts 10, percentile rtShifts 90 with
            | .ok lo, .ok hi =>
              let kept := (List.zip compRt rtShifts).filter
                (fun p => decide (lo ≤ p.2) && decide (p.2 ≤ hi))
              match rLoessCheck (kept.map Prod.fst)
                  (kept.map (fun p => p.2 * p.2)) with
              | .error e => .error e
              | .ok _ =>
                let rtSdNew := (o.loessPredict (kept.map Prod.fst)
                  (kept.map (fun p => p.2 * p.2))
                  (ref.map Feature.RT)).map (fun v => o.sqrtQ (max 0 v))
                let compNew := List.zipWith
                  (fun f p => { f with mz := f.mz / (1 + p / 1000000) })
                  comp (o.loessPredict compMz mzShifts (comp.map Feature.mz))
                .ok (compNew, .array rtSdNew, .array mzSdNew)
            | .error e, _ => .error e
            | _, .error e => .error e
      else .ok (comp, rtSd, mzSd)

/-- The setup phase of `calibrateFeatures` (lines 22-45): sort both
tables, run the global calibration, shift the comparison RT and m/z by
the median shifts, and seed both SD scalars with
`max(1e-3, np.std(shifts, ddof=1))`. -/
def calibSetup (o : Oracle) (ref comp : List Feature) (mzTolInit : ℚ) :
    Except String (List Feature × List Feature × SdVal × SdVal) :=
  match globalCalibration (sortByIntensityDesc ref) (sortByIntensityDesc comp)
      mzTolInit with
  | .error e => .error e
  | .ok (rtShifts, mzShifts) =>
    match medianQ rtShifts, medianQ mzShifts with
    | .ok medRt, .ok medMz =>
      match sampleVar rtShifts, sampleVar mzShifts with
      | .ok vr, .ok vm =>
        .ok (sortByIntensityDesc ref,
          (sortByIntensityDesc comp).map (fun f =>
            { f with RT := f.RT - medRt, mz := f.mz / (1 + medMz / 1000000) }),
          .scalar (max (1 / 1000) (o.sqrtQ vr)),
          .scalar (max (1 / 1000) (o.sqrtQ vm)))
      | .error e, _ => .error e
      | _, .error e => .error e
    | .error e, _ => .error e
    | _, .error e => .error e

/-- Sequential execution of local-calibration passes, one per listed
axis type, threading the comparison table and both SD values. -/
def runPasses (o : Oracle) (refS : List Feature) (w : ℚ) :
    List String → List Feature × SdVal × SdVal →
      Except String (List Feature × SdVal × SdVal)
  | [], st => .ok st
  | ty :: tys, st =>
    match localCalibration o refS st.1 st.2.1 st.2.2 w ty with
    | .error e => .error e
    | .ok st2 => runPasses o refS w tys st2

/-- `calibrateFeatures` (lines 7-63): the setup phase followed by the
four local-calibration calls of lines 46-58, written exactly as in the
source (RT, RT, m/z, m/z). -/
def calibrateFeatures (o : Oracle) (ref comp : List Feature) (mzTolInit w : ℚ) :
    Except String (List Feature × SdVal × SdVal) :=
  match calibSetup o ref comp mzTolInit with
  | .error e => .error e
  | .ok (refS, comp1, rtSd0, mzSd0) =>
    match localCalibration o refS comp1 rtSd0 mzSd0 w "RT" with
    | .error e => .error e
    | .ok (c2, r2, m2) =>
      match localCalibration o refS c2 r2 m2 w "RT" with
      | .error e => .error e
      | .ok (c3, r3, m3) =>
        match localCalibration o refS c3 r3 m3 w "mz" with
        | .error e => .error e
        | .ok (c4, r4, m4) =>
          match localCalibration o refS c4 r4 m4 w "mz" with
          | .error e => .error e
          | .ok st => .ok st

theorem localCalibration_rt_degenerate (o : Oracle) (ref comp : List Feature)
    (rtSd mzSd : SdVal) (w : ℚ) (rows : List SubRow)
    (hfind : findMatchedSubsetP ref comp rtSd mzSd w = .ok rows)
    (hne : rows ≠ [])
    (heq : rows.map SubRow.refRt = rows.map SubRow.compRt)
    (hlen : rows.length ≠ 1) :
    localCalibration o ref comp rtSd mzSd w "RT" =
      .error "loess x and y have different lengths" := by
  cases rows with
  | nil => exact absurd rfl hne
  | cons r0 rrest =>
    unfold localCalibration
    rw [hfind]
    simp only [reduceIte]
    rw [if_pos heq]
    unfold rLoessCheck
    rw [if_pos]
    · simp only [List.length_map, List.length_cons, List.length_nil]
      simp only [List.length_cons] at hlen
      omega

/-- A three-feature table (distinct intensities, well-separated
coordinates) whose self-match is degenerate: every feature matches
itself, so matched reference and comparison coordinates are exactly
equal. -/
def ref3 : List Feature :=
  [⟨0, 100, 1, 10, 300⟩, ⟨1, 200, 1, 20, 200⟩, ⟨2, 300, 1, 30, 100⟩]

/-- The matched subset of `ref3` against itself. -/
def rows3 : List SubRow :=
  [⟨100, 10, 300, 100, 10, 300⟩, ⟨200, 20, 200, 200, 20, 200⟩,
    ⟨300, 30, 100, 300, 30, 100⟩]

/-- C4: on a degenerate pass (all matched reference and comparison RTs
exactly equal) `localCalibration` does not complete: the guard draws a
single scalar (`np.random.normal(len(...))` sets the mean, not the
size), the loess call receives a single-element response against a
3-element predictor, and the embedded R checks raise, so the error
propagates to the caller for every possible behaviour of the external
runtimes. -/
theorem localCalibration_degenerate_raises (o : Oracle) :
    localCalibration o ref3 ref3 (.scalar 1) (.scalar 1) 10 "RT" =
      .error "loess x and y have different lengths" := by
  refine localCalibration_rt_degenerate o ref3 ref3 (.scalar 1) (.scalar 1) 10
    rows3 ?_ ?_ ?_ ?_
  · decide
  · decide
  · decide
  · decide

/-- A 30-feature table (quota `round(0.05*30) = 2`), strictly
descending intensities, features far apart in RT and m/z. -/
def ref30 : List Feature :=
  (List.range 30).map (fun k =>
    ⟨(k : Int), 100 + (k : ℚ), 1, 10 * (k : ℚ), 1000 - (k : ℚ)⟩)

/-- The matched subset of `ref30` against itself: every feature matches
exactly itself. -/
def rows30 : List SubRow :=
  (List.range 30).map (fun k =>
    ⟨100 + (k : ℚ), 10 * (k : ℚ), 1000 - (k : ℚ),
      100 + (k : ℚ), 10 * (k : ℚ), 1000 - (k : ℚ)⟩)

/-- C7: on a comparison table identical to the reference table the
global-calibration shift samples are exactly the zero samples, the
median shifts are 0 and the seeded SDs are the floor 1e-3, but the full
calibration does not leave the table unchanged and return: the first
RT pass is degenerate (every feature matches itself exactly), the
scalar-jitter slip hands the loess fit a single-element response, and
`calibrateFeatures` propagates the resulting error for every possible
behaviour of the external runtimes. -/
theorem calibrateFeatures_identity_raises (o : Oracle) :
    calibrateFeatures o ref30 ref30 20 10 =
      .error "loess x and y have different lengths" := by
  have hglobal : globalCalibration (sortByIntensityDesc ref30)
      (sortByIntensityDesc ref30) 20 = .ok ([0, 0], [0, 0]) := by
    decide
  have hmed : medianQ [0, 0] = .ok 0 := by decide
  have hvar : sampleVar [0, 0] = .ok 0 := by decide
  have hsetup : calibSetup o ref30 ref30 20 =
      .ok (sortByIntensityDesc ref30, sortByIntensityDesc ref30,
        .scalar (1 / 1000), .scalar (1 / 1000)) := by
    unfold calibSetup
    rw [hglobal]
    simp only [hmed, hvar]
    rw [o.sqrt_zero]
    decide
  have hfind : findMatchedSubsetP (sortByIntensityDesc ref30)
      (sortByIntensityDesc ref30) (.scalar (1 / 1000)) (.scalar (1 / 1000)) 10 =
        .ok rows30 := by
    decide
  have hpass : localCalibration o (sortByIntensityDesc ref30)
      (sortByIntensityDesc ref30) (.scalar (1 / 1000)) (.scalar (1 / 1000)) 10 "RT" =
        .error "loess x and y have different lengths" :=
    localCalibration_rt_degenerate o _ _ _ _ _ rows30 hfind
      (by decide) (by decide)
      (by decide)
  unfold calibrateFeatures
  rw [hsetup]
  simp only [hpass]

/-- C6: `calibrateFeatures` runs exactly four local-calibration passes
in the order RT, RT, m/z, m/z (its body equals the sequential execution
of that pass list); every pass whose axis is RT or m/z depends on the
incoming SD values only through the matched subset (so both returned SD
arrays are freshly recomputed); and whenever such a pass returns, both
the returned RT-SD and the returned m/z-SD are freshly built arrays. -/
theorem calibrateFeatures_four_passes_and_refresh :
    (∀ (o : Oracle) (ref comp : List Feature) (mzTolInit w : ℚ),
      calibrateFeatures o ref comp mzTolInit w =
        match calibSetup o ref comp mzTolInit with
        | .error e => .error e
        | .ok (refS, comp1, rtSd0, mzSd0) =>
          runPasses o refS w ["RT", "RT", "mz", "mz"] (comp1, rtSd0, mzSd0)) ∧
    (∀ (ty : String), (ty = "RT" ∨ ty = "mz") →
      ∀ (o : Oracle) (ref comp : List Feature) (sd1 sd2 sd1' sd2' : SdVal) (w : ℚ),
        findMatchedSubsetP ref comp sd1 sd2 w =
          findMatchedSubsetP ref comp sd1' sd2' w →
        localCalibration o ref comp sd1 sd2 w ty =
          localCalibration o ref comp sd1' sd2' w ty) ∧
    (∀ (ty : String), (ty = "RT" ∨ ty = "mz") →
      ∀ (o : Oracle) (ref comp : List Feature) (sd1 sd2 : SdVal) (w : ℚ)
        (c : List Feature) (r m : SdVal),
        localCalibration o ref comp sd1 sd2 w ty = .ok (c, r, m) →
        (∃ xs, r = SdVal.array xs) ∧ ∃ ys, m = SdVal.array ys) := by
  refine ⟨?_, ?_, ?_⟩
  · intro o ref comp ti w
    unfold calibrateFeatures
    cases hs : calibSetup o ref comp ti with
    | error e => rfl
    | ok st =>
      obtain ⟨refS, comp1, rtSd0, mzSd0⟩ := st
      simp only [runPasses]
      cases h1 : localCalibration o refS comp1 rtSd0 mzSd0 w "RT" with
      | error e => rfl
      | ok st2 =>
        obtain ⟨c2, r2, m2⟩ := st2
        simp only []
        cases h2 : localCalibration o refS c2 r2 m2 w "RT" with
        | error e => rfl
        | ok st3 =>
          obtain ⟨c3, r3, m3⟩ := st3
          simp only []
          cases h3 : localCalibration o refS c3 r3 m3 w "mz" with
          | error e => rfl
          | ok st4 =>
            obtain ⟨c4, r4, m4⟩ := st4
            simp only []
  · rintro ty hty o ref comp sd1 sd2 sd1' sd2' w hsub
    rcases hty with rfl | rfl
    · unfold localCalibration
      rw [hsub]
      cases hrows : findMatchedSubsetP ref comp sd1' sd2' w with
      | error e => rfl
      | ok rows =>
        cases rows with
        | nil => rfl
        | cons r0 rrest => rfl
    · unfold localCalibration
      rw [hsub]
      cases hrows : findMatchedSubsetP ref comp sd1' sd2' w with
      | error e => rfl
      | ok rows =>
        cases rows with
        | nil => rfl
        | cons r0 rrest => rfl
  · rintro ty hty o ref comp sd1 sd2 w c r m h
    rcases hty with rfl | rfl
    · unfold localCalibration at h
      simp only [reduceIte] at h
      repeat' split at h
      all_goals
        first
          | exact Except.noConfusion h
          | (simp only [Except.ok.injEq, Prod.mk.injEq] at h
             exact ⟨⟨_, h.2.1.symm⟩, _, h.2.2.symm⟩)
    · unfold localCalibration at h
      simp only [reduceIte] at h
      repeat' split at h
      all_goals
        first
          | exact Except.noConfusion h
          | (simp only [Except.ok.injEq, Prod.mk.injEq] at h
             exact ⟨⟨_, h.2.1.symm⟩, _, h.2.2.symm⟩)

/-- A comparison table offset from `ref3` by +1/1000 s in RT and +1 ppm
in m/z, giving a non-degenerate matched subset. -/
def comp3 : List Feature :=
  [⟨0, 100 * (1 + 1 / 1000000), 1, 10 + 1 / 1000, 300⟩,
    ⟨1, 200 * (1 + 1 / 1000000), 1, 20 + 1 / 1000, 200⟩,
    ⟨2, 300 * (1 + 1 / 1000000), 1, 30 + 1 / 1000, 100⟩]

theorem calibrateFeatures_four_passes_and_refresh_witness :
    (findMatchedSubsetP ref3 [] (.scalar 1) (.scalar 2) 10 =
        findMatchedSubsetP ref3 [] (.scalar 3) (.scalar 4) 10 ∧
      localCalibration idOracle ref3 [] (.scalar 1) (.scalar 2) 10 "RT" =
        localCalibration idOracle ref3 [] (.scalar 3) (.scalar 4) 10 "RT") ∧
    (localCalibration zeroOracle ref3 comp3 (.scalar 1) (.scalar 1) 10 "RT" =
        .ok (comp3, .array [0, 0, 0], .array [0, 0, 0]) ∧
      ((∃ xs, SdVal.array [0, 0, 0] = SdVal.array xs) ∧
        ∃ ys, SdVal.array [0, 0, 0] = SdVal.array ys)) :=
  ⟨⟨by decide,
    calibrateFeatures_four_passes_and_refresh.2.1 "RT" (Or.inl rfl) idOracle ref3 []
      (.scalar 1) (.scalar 2) (.scalar 3) (.scalar 4) 10
      (by decide)⟩,
    by decide,
    calibrateFeatures_four_passes_and_refresh.2.2 "RT" (Or.inl rfl) zeroOracle ref3
      comp3 (.scalar 1) (.scalar 1) 10 comp3 (.array [0, 0, 0]) (.array [0, 0, 0])
      (by decide)⟩

/-- `indArray` row classification (lines 487-498): a reference row is
fully aligned when every non-reference run matched it
(`intersect1d` over `where(indArray[:, i] >= 0)`). -/
def isFullRow (refNo nFiles : ℕ) (row : List ℤ) : Bool :=
  (List.range nFiles).all (fun j => decide (j = refNo) || decide (0 ≤ row.getD j (-1)))

/-- A reference row is partially aligned when some non-reference run
matched it but not all (`setdiff1d(union1d(...), fullInd)`). -/
def isPartRow (refNo nFiles : ℕ) (row : List ℤ) : Bool :=
  ((List.range nFiles).any (fun j => decide (j ≠ refNo) && decide (0 ≤ row.getD j (-1)))) &&
    !(isFullRow refNo nFiles row)

/-- The fully- and partially-aligned output matrices of `alignFeatures`,
restricted to the per-run `index` columns (the columns the promotion
step consults); a `none` cell is a NaN. -/
structure AlignSplit where
  fullRows : List (List (Option ℤ))
  partRows : List (List (Option ℤ))
deriving DecidableEq, Repr

/-- Cell of a fully-aligned row (lines 500-510): the matched feature's
`index` value; full rows are not subject to NaN replacement. -/
def fullCell (idxCols : List (List ℤ)) (row : List ℤ) (j : ℕ) : Option ℤ :=
  some ((idxCols.getD j []).getD (row.getD j (-1)).toNat 0)

/-- Cell of a partially-aligned row (lines 512-528): `-1` sentinels are
written for unmatched runs and afterwards every `-1` value in the
matrix is replaced by NaN (so an `index` value of -1 would also be
blanked). -/
def partCell (idxCols : List (List ℤ)) (row : List ℤ) (j : ℕ) : Option ℤ :=
  let colInd := row.getD j (-1)
  let v : ℤ := if colInd = -1 then -1 else (idxCols.getD j []).getD colInd.toNat 0
  if v = -1 then none else some v

/-- The partition of reference rows into fully- and partially-aligned
matrices (lines 487-528), before the promotion step. -/
def baseSplit (idxCols : List (List ℤ)) (indArray : List (List ℤ))
    (refNo nFiles : ℕ) : AlignSplit :=
  ⟨((List.range indArray.length).filter
      (fun r => isFullRow refNo nFiles (indArray.getD r []))).map
      (fun r => (List.range nFiles).map (fullCell idxCols (indArray.getD r []))),
    ((List.range indArray.length).filter
      (fun r => isPartRow refNo nFiles (indArray.getD r []))).map
      (fun r => (List.range nFiles).map (partCell idxCols (indArray.getD r [])))⟩

/-- For a partially-aligned row, the number of runs it is aligned in:
the non-NaN entries among its `index` columns (line 558). -/
def nRunsOf (row : List (Option ℤ)) : ℕ := (row.filterMap id).length

/-- The partition and promotion logic of `alignFeatures`
(lines 487-566): when `pct_full_alignment < 100`, partially-aligned
rows aligned in at least `ceil(pct/100 * nFiles)` runs are moved into
the fully-aligned matrix (`vstack` + `delete`); otherwise nothing
moves. -/
def alignPartition (idxCols : List (List ℤ)) (indArray : List (List ℤ))
    (refNo nFiles : ℕ) (pct : ℚ) : AlignSplit :=
  let base := baseSplit idxCols indArray refNo nFiles
  if pct < 100 then
    ⟨base.fullRows ++ base.partRows.filter
        (fun row => decide ((⌈pct / 100 * (nFiles : ℚ)⌉ : ℚ) ≤ (nRunsOf row : ℚ))),
      base.partRows.filter
        (fun row => !decide ((⌈pct / 100 * (nFiles : ℚ)⌉ : ℚ) ≤ (nRunsOf row : ℚ)))⟩
  else base

theorem isPartRow_two_eq_false (refNo : ℕ) (h : refNo < 2) (row : List ℤ) :
    isPartRow refNo 2 row = false := by
  interval_cases refNo <;>
    simp only [isPartRow, isFullRow, List.range_succ, List.range_zero,
      List.nil_append, List.all_cons, List.all_nil, List.any_cons, List.any_nil,
      List.cons_append, Bool.and_true, Bool.or_false, Bool.and_false] <;>
    cases h0 : decide (0 ≤ row.getD 0 (-1)) <;>
    cases h1 : decide (0 ≤ row.getD 1 (-1)) <;>
    simp [h0, h1]

/-- C8 (amended): setting `pct_full_alignment` to 100 leaves both
partitions untouched; with 2 runs and `pct_full_alignment` = 50 the
promotion threshold is `ceil(0.5*2) = 1`, and every partially-aligned
row is promoted -- vacuously, because with 2 runs the partially-aligned
partition is always empty, so the fully-aligned partition is unchanged.
Features present in only one of the two runs are un-aligned and are
never promoted. -/
theorem alignPartition_promotion :
    (∀ (idxCols indArray : List (List ℤ)) (refNo nFiles : ℕ),
      alignPartition idxCols indArray refNo nFiles 100 =
        baseSplit idxCols indArray refNo nFiles) ∧
    (⌈(50 : ℚ) / 100 * ((2 : ℕ) : ℚ)⌉ = 1) ∧
    (∀ (idxCols indArray : List (List ℤ)) (refNo : ℕ), refNo < 2 →
      (baseSplit idxCols indArray refNo 2).partRows = [] ∧
      alignPartition idxCols indArray refNo 2 50 =
        ⟨(baseSplit idxCols indArray refNo 2).fullRows, []⟩) := by
  refine ⟨?_, by decide, ?_⟩
  · intro idxCols indArray refNo nFiles
    unfold alignPartition
    rw [if_neg (by norm_num)]
  · intro idxCols indArray refNo h
    have hpart : (baseSplit idxCols indArray refNo 2).partRows = [] := by
      unfold baseSplit
      simp only []
      rw [show (List.range indArray.length).filter
          (fun r => isPartRow refNo 2 (indArray.getD r [])) = [] from
        List.filter_eq_nil_iff.mpr (fun r _ => by
          rw [isPartRow_two_eq_false refNo h]
          exact Bool.false_ne_true)]
      rfl
    refine ⟨hpart, ?_⟩
    unfold alignPartition
    rw [if_pos (by norm_num)]
    rw [hpart]
    simp

/-- C8 counterexample: 2 runs, `pct_full_alignment` = 50, one reference
feature (index value 0) present only in the reference run
(`indArray = [[0, -1]]`).  The feature is present in 1 of the 2 runs
and the threshold is ceil(0.5*2) = 1, yet after promotion the
fully-aligned partition is empty: the feature sits in the un-aligned
partition and is not promoted. -/
theorem alignPartition_one_of_two_not_promoted :
    alignPartition [[0], []] [[0, -1]] 0 2 50 = ⟨[], []⟩ := by decide

theorem alignPartition_promotion_witness :
    (0 : ℕ) < 2 ∧
      ((baseSplit [[5], [7]] [[0, 0]] 0 2).partRows = [] ∧
        alignPartition [[5], [7]] [[0, 0]] 0 2 50 =
          ⟨(baseSplit [[5], [7]] [[0, 0]] 0 2).fullRows, []⟩) :=
  ⟨by decide, alignPartition_promotion.2.2 [[5], [7]] [[0, 0]] 0 (by decide)⟩

theorem medianQ_ok {xs : List ℚ} (h : xs ≠ []) : ∃ v, medianQ xs = .ok v :=
  percentile_ok h 50

/-- The rescue loop of `rescueFeatures` (lines 434-459): for each
unaligned reference feature, the unaligned comparison features passing
the intensity-level, intensity-ratio and tolerance criteria are
collected; the charge tie-break mirrors the matcher.  In the
exact-charge branch the source indexes `uCompInd[ind2]` although `ind2`
is a position within the filtered candidate list `ind`, and the
embedding reproduces that indexing as written. -/
def rescueLoop (o : Oracle) (intLevel loR hiR : ℚ) (uComp : List Feature)
    (uCompInd : List ℕ) (rtTol mzTol : List ℚ) :
    List (ℕ × ℕ × Feature) → List ℕ → List ℕ → List ℕ × List ℕ
  | [], refInd, compInd => (refInd, compInd)
  | (i, uri, rf) :: rest, refInd, compInd =>
    match (List.range uComp.length).filter (fun k =>
        decide (intLevel < (uComp.getD k default).intensity) &&
        decide (loR ≤ o.log2 (uComp.getD k default).intensity - o.log2 rf.intensity) &&
        decide (o.log2 (uComp.getD k default).intensity - o.log2 rf.intensity ≤ hiR) &&
        decide (|ppmDev rf.mz (uComp.getD k default).mz| ≤ mzTol.getD i 0) &&
        decide (|(uComp.getD k default).RT - rf.RT| ≤ rtTol.getD i 0)) with
    | [] => rescueLoop o intLevel loR hiR uComp uCompInd rtTol mzTol rest refInd compInd
    | k0 :: ks =>
      if rf.z = 0 then
        rescueLoop o intLevel loR hiR uComp uCompInd rtTol mzTol rest
          (refInd ++ [uri]) (compInd ++ [uCompInd.getD k0 0])
      else if (uComp.getD k0 default).z = 0 then
        rescueLoop o intLevel loR hiR uComp uCompInd rtTol mzTol rest
          (refInd ++ [uri]) (compInd ++ [uCompInd.getD k0 0])
      else
        match (List.range (k0 :: ks).length).filter (fun p =>
            decide ((uComp.getD ((k0 :: ks).getD p 0) default).z = rf.z)) with
        | [] => rescueLoop o intLevel loR hiR uComp uCompInd rtTol mzTol rest refInd compInd
        | p0 :: _ =>
          rescueLoop o intLevel loR hiR uComp uCompInd rtTol mzTol rest
            (refInd ++ [uri]) (compInd ++ [uCompInd.getD p0 0])

/-- `rescueFeatures` (lines 385-462): restrict to unaligned features,
compute the intensity level (median of aligned comparison intensities)
and the central-95-percent ratio bounds, dispatch on the RT- and
m/z-tolerance-unit codes, and run the rescue loop.  A unit code other
than "1" or "2" prints a warning and returns the index lists unchanged
(the rescue step is skipped); the function does not abort. -/
def rescueFeatures (o : Oracle) (ref comp : List Feature)
    (refInd compInd : List ℕ) (rtSd mzSd : List ℚ)
    (rtTolUnit : String) (rtTolV : ℚ) (mzTolUnit : String) (mzTolV : ℚ) :
    Except String (List ℕ × List ℕ) :=
  let uRefInd := (List.range ref.length).filter (fun i => decide (i ∉ refInd))
  let uCompInd := (List.range comp.length).filter (fun k => decide (k ∉ compInd))
  let uComp := uCompInd.map (fun k => comp.getD k default)
  match medianQ (compInd.map (fun k => (comp.getD k default).intensity)) with
  | .error e => .error e
  | .ok intLevel =>
    let ratioAligned := List.zipWith (fun i k =>
      o.log2 (ref.getD i default).intensity - o.log2 (comp.getD k default).intensity)
      refInd compInd
    match percentile ratioAligned (5 / 2), percentile ratioAligned (195 / 2) with
    | .ok loR, .ok hiR =>
      match (if rtTolUnit = "1" then
               some (uRefInd.map (fun i => rtTolV * rtSd.getD i 0))
             else if rtTolUnit = "2" then
               some (List.replicate uRefInd.length rtTolV)
             else none) with
      | none => .ok (refInd, compInd)
      | some rtTolArr =>
        match (if mzTolUnit = "1" then
                 some (uRefInd.map (fun i => mzTolV * mzSd.getD i 0))
               else if mzTolUnit = "2" then
                 some (List.replicate uRefInd.length mzTolV)
               else none) with
        | none => .ok (refInd, compInd)
        | some mzTolArr =>
          .ok (rescueLoop o intLevel loR hiR uComp uCompInd rtTolArr mzTolArr
            (uRefInd.enum.map (fun p => (p.1, p.2, ref.getD p.2 default)))
            refInd compInd)
    | .error e, _ => .error e
    | _, .error e => .error e

/-- C9 (amended): invoked with an RT-tolerance-unit code outside
{"1","2"} (and well-defined prelude statistics), `rescueFeatures` does
not abort: it warns, skips the rescue stage and returns the aligned
index lists unchanged. -/
theorem rescueFeatures_bad_unit_skips (o : Oracle) (ref comp : List Feature)
    (refInd compInd : List ℕ) (rtSd mzSd : List ℚ) (u : String) (rtTolV : ℚ)
    (mzTolUnit : String) (mzTolV : ℚ)
    (hu1 : u ≠ "1") (hu2 : u ≠ "2")
    (hr : refInd ≠ []) (hc : compInd ≠ []) :
    rescueFeatures o ref comp refInd compInd rtSd mzSd u rtTolV mzTolUnit mzTolV =
      .ok (refInd, compInd) := by
  obtain ⟨med, hmed⟩ := medianQ_ok
    (show compInd.map (fun k => (comp.getD k default).intensity) ≠ [] by
      simpa using hc)
  have hzip : List.zipWith (fun i k =>
      o.log2 (ref.getD i default).intensity - o.log2 (comp.getD k default).intensity)
      refInd compInd ≠ [] := by
    cases refInd with
    | nil => exact absurd rfl hr
    | cons a as =>
      cases compInd with
      | nil => exact absurd rfl hc
      | cons b bs => simp
  obtain ⟨loR, hlo⟩ := percentile_ok hzip (5 / 2)
  obtain ⟨hiR, hhi⟩ := percentile_ok hzip (195 / 2)
  unfold rescueFeatures
  simp only [hmed, hlo, hhi]
  rw [if_neg hu1, if_neg hu2]

/-- C9 counterexample: a concrete `rescueFeatures` call with
RT-tolerance-unit code "3" returns the index lists unchanged rather
than aborting (an abort is an error in the embedding). -/
theorem rescueFeatures_bad_unit_no_abort :
    rescueFeatures idOracle refOne refOne [0] [0] [1] [1] "3" 5 "1" 5 =
      .ok ([0], [0]) := by decide

theorem rescueFeatures_bad_unit_skips_witness :
    (("3" : String) ≠ "1" ∧ ("3" : String) ≠ "2" ∧ ([0] : List ℕ) ≠ [] ∧
        ([0] : List ℕ) ≠ []) ∧
      rescueFeatures idOracle refOne refOne [0] [0] [1] [1] "3" 5 "2" 7 =
        .ok ([0], [0]) :=
  ⟨⟨by decide, by decide, by decide, by decide⟩,
    rescueFeatures_bad_unit_skips idOracle refOne refOne [0] [0] [1] [1] "3" 5 "2" 7
      (by decide) (by decide) (by decide) (by decide)⟩

end FeatAlign
